import Mathlib

/-!
# Verification of the context-passing decorator composition pipeline

The repository's `lib/store` package composes a render function with an ordered
list of decorators (`defaultDecorateStory`).  The implementation file
`lib/store/src/decorators.ts` is not part of the sampled sources (only its test
suite `decorators.test.ts` is), so the runtime below is modelled from the
specification (§3–§5) and checked against the behaviour recorded in the tests.

Contexts carry protected core fields (`id`, `kind`, `name`, `viewMode`,
`parameters`) and a table of extension fields merged by shallow
overwrite-by-key.  Extension values are treated as opaque integers: the merge
is shallow, so their internal structure is never inspected.
-/

namespace Storybook

/-- Extension-field table of a context: an association list from field name to
an (opaque) value, first binding wins on lookup. -/
abbrev FieldMap := List (String × Int)

/-- Field lookup in an extension table. -/
def lookupField : FieldMap → String → Option Int
  | [], _ => none
  | (k', v) :: rest, k => if k' = k then some v else lookupField rest k

/-- Overwrite-or-append one key, mirroring the effect of a JavaScript object
spread on a single field: an existing binding is replaced in place, a new field
is appended. -/
def setKey : FieldMap → String → Int → FieldMap
  | [], k, v => [(k, v)]
  | (k', v') :: rest, k, v =>
    if k' = k then (k, v) :: rest else (k', v') :: setKey rest k v

/-- Modelled from the spec: shallow overwrite-by-key combination of extension
fields — later contributions for a field overwrite earlier ones, fields absent
from the update keep their prior values. -/
def overwriteKeys (base upd : FieldMap) : FieldMap :=
  upd.foldl (fun acc p => setKey acc p.1 p.2) base

/-- The context threaded through the chain (`StoryContext` in the source):
core fields plus an extension-field table. -/
structure StoryContext where
  id : String
  kind : String
  name : String
  viewMode : String
  parameters : FieldMap
  ext : FieldMap
deriving DecidableEq, Repr

/-- A partial context update passed by a decorator to `next`.  It may mention
core fields (which the merge strips) and contributes extension fields. -/
structure ContextUpdate where
  idU : Option String
  kindU : Option String
  nameU : Option String
  viewModeU : Option String
  parametersU : Option FieldMap
  ext : FieldMap
deriving DecidableEq, Repr

/-- The empty update (calling `next` with no argument). -/
def emptyUpdate : ContextUpdate :=
  ⟨none, none, none, none, none, []⟩

/-- Modelled from the spec: `merge(base, update)` — core fields of `update` are
ignored/stripped, never applied; extension fields combine by shallow
overwrite-by-key (`lib/store/src/decorators.ts` is absent from the sample). -/
def mergeContext (base : StoryContext) (update : ContextUpdate) : StoryContext :=
  { base with ext := overwriteKeys base.ext update.ext }

/-- The protected core zone of a context. -/
def coreOf (c : StoryContext) : String × String × String × String × FieldMap :=
  (c.id, c.kind, c.name, c.viewMode, c.parameters)

/-- Per-pipeline runtime state: the private current-context cell owned by one
composed pipeline, together with the user-visible state `σ` that decorator and
render bodies may read and write (used to record observations). -/
structure PipeState (σ : Type) where
  cell : StoryContext
  user : σ
deriving DecidableEq, Repr

/-- A step of the invocation runtime: explicit state passing with explicit
failure (`Except ε`), the shallow embedding of a possibly-throwing call that
reads and writes the pipeline's state. -/
abbrev Comp (ε σ R : Type) := PipeState σ → Except ε R × PipeState σ

/-- The continuation a decorator receives: "continue the chain with an
optional context extension merged in". -/
abbrev NextFn (ε σ R : Type) := Option ContextUpdate → Comp ε σ R

/-- A decorator: `(next, context) -> result`. -/
abbrev Interceptor (ε σ R : Type) := NextFn ε σ R → StoryContext → Comp ε σ R

/-- A (possibly decorated) story function: `(context) -> result`. -/
abbrev RenderFn (ε σ R : Type) := StoryContext → Comp ε σ R

/-- Modelled from the spec §4.3: calling `nextFn(update)` merges the update
into the pipeline's current-context cell, stores the merged context back into
the cell, and invokes the inner wrapper with that merged context. -/
def bindWithContext (inner : RenderFn ε σ R) : NextFn ε σ R :=
  fun update st =>
    let merged := mergeContext st.cell (update.getD emptyUpdate)
    inner merged { st with cell := merged }

/-- Modelled from the spec §4.1: wrap one decorator around an inner story
function; the bound continuation closes over the pipeline's cell. -/
def decorateStory (inner : RenderFn ε σ R) (dec : Interceptor ε σ R) : RenderFn ε σ R :=
  fun ctx => dec (bindWithContext inner) ctx

/-- Modelled from the spec §4.1/§4.3 (`defaultDecorateStory` of the absent
`lib/store/src/decorators.ts`): fold the decorators left-to-right so that the
first-declared decorator is innermost, then return an entry point that stores
the external context into the cell and runs the pre-built chain. -/
def defaultDecorateStory (render : RenderFn ε σ R) (decorators : List (Interceptor ε σ R)) :
    RenderFn ε σ R :=
  let chain := decorators.foldl decorateStory render
  fun ctx st => chain ctx { st with cell := ctx }

/-- One external invocation of an entry point: the pipeline's private cell
starts at the supplied context (the entry point overwrites it anyway) and the
user state starts at `u`. -/
def invoke (entry : RenderFn ε σ R) (ctx : StoryContext) (u : σ) :
    Except ε R × PipeState σ :=
  entry ctx ⟨ctx, u⟩

/-- Modelled from the spec §4.1: construction itself, expressed in the same
state-threading style as invocations — building the composed pipeline returns
the entry point and performs no frame effects. -/
def buildComp (render : RenderFn ε σ R) (ds : List (Interceptor ε σ R)) :
    Comp ε σ (RenderFn ε σ R) :=
  fun st => (Except.ok (defaultDecorateStory render ds), st)

/-- Append one observation to the user-visible trace. -/
def pushUser (e : ε') (st : PipeState (List ε')) : PipeState (List ε') :=
  { st with user := st.user ++ [e] }

/-- A decorator that records `f` of the context it observes, then calls `next`
exactly once with the update `u` (the shape used throughout the test suite). -/
def traceDecorator (f : StoryContext → ε') (u : ContextUpdate) : Interceptor ε (List ε') R :=
  fun next ctx st => next (some u) (pushUser (f ctx) st)

/-- A decorator that records `f` of the context it observes and never calls
`next`, returning its own value `rv` (a short-circuiting decorator). -/
def haltDecorator (f : StoryContext → ε') (rv : R) : Interceptor ε (List ε') R :=
  fun _ ctx st => (Except.ok rv, pushUser (f ctx) st)

/-- A decorator that fails with error `e` (a throwing or rejecting decorator);
it never calls `next`. -/
def throwDecorator (e : ε) : Interceptor ε σ R :=
  fun _ _ st => (Except.error e, st)

/-- A render function that records `f` of the context it observes and returns
`rv`. -/
def traceRender (f : StoryContext → ε') (rv : R) : RenderFn ε (List ε') R :=
  fun ctx st => (Except.ok rv, pushUser (f ctx) st)

/-- A render function that fails with error `e`. -/
def throwRender (e : ε) : RenderFn ε σ R :=
  fun _ st => (Except.error e, st)

/-- A render function with no observable effect. -/
def pureRender (rv : R) : RenderFn ε σ R :=
  fun _ st => (Except.ok rv, st)

/-- Specification-side recurrence for a descent through trace decorators given
in execution order (outermost first): the list of recorded observations and the
fully merged context handed to whatever sits below the last frame. -/
def traceOf (c : StoryContext) :
    List ((StoryContext → ε') × ContextUpdate) → List ε' × StoryContext
  | [] => ([], c)
  | (f, u) :: rest =>
    let r := traceOf (mergeContext c u) rest
    (f c :: r.1, r.2)

/-- Specification-side list of the contexts observed outer-to-inner (frames
first, terminal render function last) for updates given in execution order. -/
def observedContexts (c : StoryContext) : List ContextUpdate → List StoryContext
  | [] => [c]
  | u :: rest => c :: observedContexts (mergeContext c u) rest

theorem lookupField_setKey_same (m : FieldMap) (k : String) (v : Int) :
    lookupField (setKey m k v) k = some v := by
  induction m with
  | nil => simp [setKey, lookupField]
  | cons p rest ih =>
    obtain ⟨pk, pv⟩ := p
    by_cases h : pk = k
    · simp [setKey, h, lookupField]
    · simp [setKey, h, lookupField, ih]

theorem lookupField_setKey_other (m : FieldMap) (k k' : String) (v : Int)
    (h : k' ≠ k) : lookupField (setKey m k v) k' = lookupField m k' := by
  have h' : ¬ k = k' := fun hk => h hk.symm
  induction m with
  | nil => simp [setKey, lookupField, h']
  | cons p rest ih =>
    obtain ⟨pk, pv⟩ := p
    by_cases hp : pk = k
    · simp [setKey, hp, lookupField, h']
    · simp only [setKey, hp, if_false, lookupField]
      by_cases hp' : pk = k'
      · simp [hp']
      · simp [hp', ih]

theorem mergeContext_emptyUpdate (c : StoryContext) :
    mergeContext c emptyUpdate = c := rfl

theorem coreOf_mergeContext (b : StoryContext) (u : ContextUpdate) :
    coreOf (mergeContext b u) = coreOf b := rfl

theorem traceOf_snd (fs : List ((StoryContext → ε') × ContextUpdate)) :
    ∀ c : StoryContext, (traceOf c fs).2 = (fs.map Prod.snd).foldl mergeContext c := by
  induction fs with
  | nil => intro c; rfl
  | cons p rest ih => intro c; simp [traceOf, ih]

theorem traceOf_const_tags (ps : List (Nat × ContextUpdate)) :
    ∀ c : StoryContext,
      (traceOf c (ps.map fun p => ((fun _ => p.1 : StoryContext → Nat), p.2))).1
        = ps.map Prod.fst := by
  induction ps with
  | nil => intro c; rfl
  | cons p rest ih => intro c; simp [traceOf, ih]

theorem observedContexts_eq_traceOf (us : List ContextUpdate) :
    ∀ c : StoryContext,
      observedContexts c us
        = (traceOf c (us.map fun u => ((fun x => x : StoryContext → StoryContext), u))).1
            ++ [us.foldl mergeContext c] := by
  induction us with
  | nil => intro c; rfl
  | cons u rest ih => intro c; simp [observedContexts, traceOf, ih]

theorem coreOf_mem_observedContexts (us : List ContextUpdate) :
    ∀ (c c' : StoryContext), c' ∈ observedContexts c us → coreOf c' = coreOf c := by
  induction us with
  | nil =>
    intro c c' h
    simp [observedContexts] at h
    simp [h]
  | cons u rest ih =>
    intro c c' h
    simp only [observedContexts, List.mem_cons] at h
    rcases h with h | h
    · simp [h]
    · exact (ih (mergeContext c u) c' h).trans (coreOf_mergeContext c u)

/-- Running the chain built from trace decorators (declaration order `fs`),
started at a state whose cell holds the invocation context: the frames record
their observations outer-to-inner, the cell descends through the merged
contexts, and control reaches `inner` with the fully merged context. -/
theorem traceChain_run (inner : RenderFn ε (List ε') R)
    (fs : List ((StoryContext → ε') × ContextUpdate)) :
    ∀ (ctx : StoryContext) (st : PipeState (List ε')), st.cell = ctx →
      ((fs.map fun p => traceDecorator p.1 p.2).foldl decorateStory inner) ctx st
        = inner (traceOf ctx fs.reverse).2
            ⟨(traceOf ctx fs.reverse).2, st.user ++ (traceOf ctx fs.reverse).1⟩ := by
  induction fs using List.reverseRecOn with
  | nil =>
    intro ctx st h
    simp only [List.map_nil, List.foldl_nil, List.reverse_nil, traceOf, List.append_nil]
    rw [← h]
  | append_singleton fs p ih =>
    intro ctx st h
    obtain ⟨f, u⟩ := p
    rw [List.map_append, List.foldl_append]
    simp only [List.map_cons, List.map_nil, List.foldl_cons, List.foldl_nil]
    show (decorateStory ((fs.map fun p => traceDecorator p.1 p.2).foldl decorateStory inner)
      (traceDecorator f u)) ctx st = _
    have step :
        (decorateStory ((fs.map fun p => traceDecorator p.1 p.2).foldl decorateStory inner)
          (traceDecorator f u)) ctx st
        = ((fs.map fun p => traceDecorator p.1 p.2).foldl decorateStory inner)
            (mergeContext st.cell u)
            ⟨mergeContext st.cell u, st.user ++ [f ctx]⟩ := rfl
    rw [step, h, ih (mergeContext ctx u) ⟨mergeContext ctx u, st.user ++ [f ctx]⟩ rfl]
    simp [traceOf, List.append_assoc]

/-- An update touching only the single extension field `k`. -/
def extUpd (k : String) (v : Int) : ContextUpdate :=
  ⟨none, none, none, none, none, [(k, v)]⟩

/-- The pipeline in which every decorator and the render function record the
full context they observe, each decorator passing update `u` to `next`
(declaration order = `us`). -/
def obsEntry (us : List ContextUpdate) : RenderFn ε (List StoryContext) Int :=
  defaultDecorateStory (traceRender (fun x => x) 0)
    (us.map fun u => traceDecorator (fun x => x) u)

/-- Full characterization of one invocation of the observation pipeline: the
recorded contexts are exactly `observedContexts` of the reversed declaration
order, and the cell ends at the fully merged context. -/
theorem obsEntry_run (ε : Type) (us : List ContextUpdate) (ctx : StoryContext) :
    invoke (obsEntry us : RenderFn ε (List StoryContext) Int) ctx []
      = (Except.ok 0,
         ⟨us.reverse.foldl mergeContext ctx, observedContexts ctx us.reverse⟩) := by
  have hmap : (us.map fun u => (traceDecorator (fun x => x) u : Interceptor ε (List StoryContext) Int))
      = ((us.map fun u => ((fun x => x : StoryContext → StoryContext), u)).map
          fun p => traceDecorator p.1 p.2) := by
    simp [List.map_map, Function.comp]
  have hrun := traceChain_run
      (traceRender (fun x => x) 0 : RenderFn ε (List StoryContext) Int)
      (us.map fun u => ((fun x => x : StoryContext → StoryContext), u)) ctx ⟨ctx, []⟩ rfl
  show ((us.map fun u => (traceDecorator (fun x => x) u : Interceptor ε (List StoryContext) Int)).foldl
      decorateStory (traceRender (fun x => x) 0)) ctx ⟨ctx, []⟩ = _
  rw [hmap, hrun]
  have hrev : (us.map fun u => ((fun x => x : StoryContext → StoryContext), u)).reverse
      = us.reverse.map fun u => ((fun x => x : StoryContext → StoryContext), u) := by
    simp
  rw [hrev]
  have hsnd := traceOf_snd
      (us.reverse.map fun u => ((fun x => x : StoryContext → StoryContext), u)) ctx
  have hmapsnd : ((us.reverse.map fun u => ((fun x => x : StoryContext → StoryContext), u)).map
      Prod.snd) = us.reverse := by simp
  rw [hmapsnd] at hsnd
  have hobs := observedContexts_eq_traceOf us.reverse ctx
  simp only [traceRender, pushUser, hsnd, hobs]
  simp

/-- The external context used by the test suite for the context-passing
scenario: core fields as in `makeContext`, extension field `k` set to `0`. -/
def ctxK0 : StoryContext :=
  ⟨"id", "kind", "name", "story", [], [("k", 0)]⟩

/-- C1: for every render function and every three decorators declared in order
[A, B, C], each calling `next` exactly once (with arbitrary updates), one
invocation of the composed entry point executes C first, then B, then A, and
finally the render function, exactly once each — the recorded trace is
`[c, b, a, rt]` and the render function's value is returned. -/
theorem execution_order_reverse_of_declaration (ε : Type) (a b c rt : Nat)
    (ua ub uc : ContextUpdate) (rv : Int) (ctx : StoryContext) :
    (invoke (defaultDecorateStory (traceRender (fun _ => rt) rv)
        [traceDecorator (fun _ => a) ua, traceDecorator (fun _ => b) ub,
         traceDecorator (fun _ => c) uc] : RenderFn ε (List Nat) Int) ctx []).1
      = Except.ok rv
    ∧ (invoke (defaultDecorateStory (traceRender (fun _ => rt) rv)
        [traceDecorator (fun _ => a) ua, traceDecorator (fun _ => b) ub,
         traceDecorator (fun _ => c) uc] : RenderFn ε (List Nat) Int) ctx []).2.user
      = [c, b, a, rt] :=
  ⟨rfl, rfl⟩

/-- C2 counterexample: with decorators declared [A, B, C] passing updates
`{k:1}`, `{k:2}`, `{k:3}` and external context `k=0`, the recorded observations
are k = 0, 3, 2, 1 in push (execution) order C, B, A, render; in particular the
context observed by A — the third observation — has `k = 2` and is *not* the
externally supplied context, contradicting the claim's assignment. -/
theorem observed_context_assignment_counterexample :
    (((invoke (obsEntry [extUpd "k" 1, extUpd "k" 2, extUpd "k" 3]
        : RenderFn String (List StoryContext) Int) ctxK0 []).2.user).map
          fun x => lookupField x.ext "k") = [some 0, some 3, some 2, some 1]
    ∧ ((invoke (obsEntry [extUpd "k" 1, extUpd "k" 2, extUpd "k" 3]
        : RenderFn String (List StoryContext) Int) ctxK0 []).2.user)[2]?
        ≠ some ctxK0 := by
  constructor
  · rfl
  · decide

/-- C2 (amended): the context observed by C (the outermost, first-executed
frame) is the externally supplied context, B observes `k=3`, A observes `k=2`;
in general the observed contexts, outer-to-inner with the render function
last, are exactly `observedContexts` of the reversed declaration order — each
frame sees the merge of all updates contributed by the frames invoked before
it — and the render function observes the fully merged result (the final cell
value, the fold of all updates in outer-to-inner order). -/
theorem observed_contexts_outer_to_inner (ε : Type) (us : List ContextUpdate)
    (ctx : StoryContext) :
    (invoke (obsEntry us : RenderFn ε (List StoryContext) Int) ctx []).2.user
        = observedContexts ctx us.reverse
    ∧ (invoke (obsEntry us : RenderFn ε (List StoryContext) Int) ctx []).2.cell
        = us.reverse.foldl mergeContext ctx := by
  rw [obsEntry_run]
  exact ⟨rfl, rfl⟩

/-- C3: whatever update sequence the decorators pass (including updates that
set `id`, `kind`, `name`, `viewMode` or `parameters`), every context observed
by any frame or by the render function carries core fields identical to those
of the externally supplied context — core fields in updates are stripped,
never applied. -/
theorem core_fields_protected (ε : Type) (us : List ContextUpdate)
    (ctx ob : StoryContext)
    (h : ob ∈ (invoke (obsEntry us : RenderFn ε (List StoryContext) Int) ctx []).2.user) :
    coreOf ob = coreOf ctx := by
  rw [obsEntry_run] at h
  exact coreOf_mem_observedContexts us.reverse ctx ob h

/-- An update that attempts to overwrite every core field. -/
def coreSpoof : ContextUpdate :=
  ⟨some "notId", some "notKind", some "notName", some "docs", some [("c", 4)], [("p", 5)]⟩

/-- The external context used by the core-metadata test: `parameters = {a:1}`. -/
def ctxPar : StoryContext :=
  ⟨"id", "kind", "name", "story", [("a", 1)], []⟩

theorem core_fields_protected_witness :
    (mergeContext ctxPar coreSpoof)
        ∈ (invoke (obsEntry [coreSpoof] : RenderFn String (List StoryContext) Int)
            ctxPar []).2.user
    ∧ coreOf (mergeContext ctxPar coreSpoof) = coreOf ctxPar :=
  ⟨by decide, core_fields_protected String [coreSpoof] ctxPar
      (mergeContext ctxPar coreSpoof) (by decide)⟩

/-- C4: with one decorator whose update touches only extension field `a` and a
later-executed frame whose update touches only extension field `g` (the
first-declared decorator is the inner, later-executed one), the context handed
to the render function — the final cell value — contains both fields with
their contributed values, and any field untouched by both updates keeps its
value from the external context: merging is a shallow overwrite-by-key. -/
theorem additive_field_independence (ε : Type) (a g : String) (va vg : Int)
    (ctx fin : StoryContext) (hag : a ≠ g)
    (hfin : fin = (invoke (defaultDecorateStory (traceRender (fun x => x) 0)
        [traceDecorator (fun x => x) (extUpd g vg), traceDecorator (fun x => x) (extUpd a va)]
        : RenderFn ε (List StoryContext) Int) ctx []).2.cell) :
    lookupField fin.ext g = some vg ∧ lookupField fin.ext a = some va
    ∧ ∀ k : String, k ≠ a → k ≠ g → lookupField fin.ext k = lookupField ctx.ext k := by
  have hfin' : fin.ext = setKey (setKey ctx.ext a va) g vg := by rw [hfin]; rfl
  refine ⟨?_, ?_, ?_⟩
  · rw [hfin', lookupField_setKey_same]
  · rw [hfin', lookupField_setKey_other _ _ _ _ hag, lookupField_setKey_same]
  · intro k hka hkg
    rw [hfin', lookupField_setKey_other _ _ _ _ hkg, lookupField_setKey_other _ _ _ _ hka]

/-- A context carrying one unrelated extension field `h = 7`. -/
def ctxH : StoryContext :=
  ⟨"id", "kind", "name", "story", [], [("h", 7)]⟩

theorem additive_field_independence_witness :
    ("a" : String) ≠ "g"
    ∧ (⟨"id", "kind", "name", "story", [], [("h", 7), ("a", 1), ("g", 2)]⟩ : StoryContext)
        = (invoke (defaultDecorateStory (traceRender (fun x => x) 0)
            [traceDecorator (fun x => x) (extUpd "g" 2), traceDecorator (fun x => x) (extUpd "a" 1)]
            : RenderFn String (List StoryContext) Int) ctxH []).2.cell
    ∧ (lookupField (⟨"id", "kind", "name", "story", [], [("h", 7), ("a", 1), ("g", 2)]⟩
          : StoryContext).ext "g" = some 2
      ∧ lookupField (⟨"id", "kind", "name", "story", [], [("h", 7), ("a", 1), ("g", 2)]⟩
          : StoryContext).ext "a" = some 1
      ∧ ∀ k : String, k ≠ "a" → k ≠ "g" →
          lookupField (⟨"id", "kind", "name", "story", [], [("h", 7), ("a", 1), ("g", 2)]⟩
            : StoryContext).ext k = lookupField ctxH.ext k) :=
  ⟨by decide, by decide,
    additive_field_independence String "a" "g" 1 2 ctxH _ (by decide) (by decide)⟩

/-- C10: when the external context omits the extension field `k` (its lookup
is absent), invoking the entry point still succeeds: the frame that reads the
absent field observes it as absent, and its update may introduce the field,
which the render function then observes downstream. -/
theorem absent_extension_fields_safe (ε : Type) (k : String) (v : Int)
    (ctx : StoryContext) (h : lookupField ctx.ext k = none) :
    (invoke (defaultDecorateStory (traceRender (fun x => x) 0)
        [traceDecorator (fun x => x) (extUpd k v)]
        : RenderFn ε (List StoryContext) Int) ctx []).1 = Except.ok 0
    ∧ ((invoke (defaultDecorateStory (traceRender (fun x => x) 0)
        [traceDecorator (fun x => x) (extUpd k v)]
        : RenderFn ε (List StoryContext) Int) ctx []).2.user).map
          (fun x => lookupField x.ext k) = [none, some v] := by
  refine ⟨rfl, ?_⟩
  show [lookupField ctx.ext k, lookupField (setKey ctx.ext k v) k] = [none, some v]
  rw [h, lookupField_setKey_same]

/-- A context with no extension fields at all. -/
def ctxBare : StoryContext :=
  ⟨"id", "kind", "name", "story", [], []⟩

theorem absent_extension_fields_safe_witness :
    lookupField ctxBare.ext "args" = none
    ∧ ((invoke (defaultDecorateStory (traceRender (fun x => x) 0)
        [traceDecorator (fun x => x) (extUpd "args" 7)]
        : RenderFn String (List StoryContext) Int) ctxBare []).1 = Except.ok 0
      ∧ ((invoke (defaultDecorateStory (traceRender (fun x => x) 0)
        [traceDecorator (fun x => x) (extUpd "args" 7)]
        : RenderFn String (List StoryContext) Int) ctxBare []).2.user).map
          (fun x => lookupField x.ext "args") = [none, some 7]) :=
  ⟨by decide, absent_extension_fields_safe String "args" 7 ctxBare (by decide)⟩

/-- Decorators that record a numeric tag and call `next` once with an update,
declaration order = `ps`. -/
def tagDecs (ps : List (Nat × ContextUpdate)) : List (Interceptor ε (List Nat) Int) :=
  ps.map fun p => traceDecorator (fun _ => p.1) p.2

/-- Running the chain of tag decorators around an arbitrary inner story
function: the tags are recorded in reverse declaration order and `inner`
receives the fully merged context. -/
theorem tagChain_run (ε : Type) (inner : RenderFn ε (List Nat) Int)
    (ps : List (Nat × ContextUpdate)) :
    ∀ (ctx : StoryContext) (st : PipeState (List Nat)), st.cell = ctx →
    ((tagDecs ps).foldl decorateStory inner) ctx st
      = inner ((ps.map Prod.snd).reverse.foldl mergeContext ctx)
          ⟨(ps.map Prod.snd).reverse.foldl mergeContext ctx,
           st.user ++ (ps.map Prod.fst).reverse⟩ := by
  intro ctx st h
  have hmap : (tagDecs ps : List (Interceptor ε (List Nat) Int))
      = ((ps.map fun p => ((fun _ => p.1 : StoryContext → Nat), p.2)).map
          fun q => traceDecorator q.1 q.2) := by
    simp [tagDecs, List.map_map, Function.comp]
  have hrun := traceChain_run inner
      (ps.map fun p => ((fun _ => p.1 : StoryContext → Nat), p.2)) ctx st h
  rw [hmap, hrun]
  have hrev : (ps.map fun p => ((fun _ => p.1 : StoryContext → Nat), p.2)).reverse
      = ps.reverse.map fun p => ((fun _ => p.1 : StoryContext → Nat), p.2) := by
    simp
  rw [hrev]
  have h1 := traceOf_const_tags ps.reverse ctx
  have h2 := traceOf_snd (ps.reverse.map fun p => ((fun _ => p.1 : StoryContext → Nat), p.2)) ctx
  rw [h1, h2]
  have h3 : ((ps.reverse.map fun p => ((fun _ => p.1 : StoryContext → Nat), p.2)).map Prod.snd)
      = ps.reverse.map Prod.snd := by
    simp [List.map_map, Function.comp_def]
  rw [h3]
  simp

/-- C6: if some decorator never calls `nextFn`, the chain halts at that frame:
the decorators declared after it (the outer frames) run first as usual, the
halting frame records its tag last, no frame inner to it — neither the
decorators declared before it nor the render function — ever runs, and the
halting decorator's own return value `rv` becomes the value of the entry-point
call. -/
theorem short_circuit_halts_chain (ε : Type) (before after : List (Nat × ContextUpdate))
    (t rt : Nat) (rv rrv : Int) (ctx : StoryContext) :
    (invoke (defaultDecorateStory (traceRender (fun _ => rt) rrv)
        (tagDecs before ++ haltDecorator (fun _ => t) rv :: tagDecs after)
        : RenderFn ε (List Nat) Int) ctx []).1 = Except.ok rv
    ∧ (invoke (defaultDecorateStory (traceRender (fun _ => rt) rrv)
        (tagDecs before ++ haltDecorator (fun _ => t) rv :: tagDecs after)
        : RenderFn ε (List Nat) Int) ctx []).2.user
      = (after.map Prod.fst).reverse ++ [t] := by
  have hstart : invoke (defaultDecorateStory (traceRender (fun _ => rt) rrv)
        (tagDecs before ++ haltDecorator (fun _ => t) rv :: tagDecs after)
        : RenderFn ε (List Nat) Int) ctx []
      = ((tagDecs before ++ haltDecorator (fun _ => t) rv :: tagDecs after).foldl
          decorateStory (traceRender (fun _ => rt) rrv)) ctx ⟨ctx, []⟩ := rfl
  have hrun := tagChain_run ε
      (decorateStory ((tagDecs before).foldl decorateStory (traceRender (fun _ => rt) rrv))
        (haltDecorator (fun _ => t) rv)) after ctx ⟨ctx, []⟩ rfl
  rw [hstart, List.foldl_append, List.foldl_cons, hrun]
  exact ⟨rfl, rfl⟩

/-- C8: a failure at any depth surfaces at the entry-point call site with the
originating error value intact and no recovery: (i) a failing decorator stops
the chain — only the outer frames declared after it have run, the deeper
frames and the render function never run, and the entry point returns exactly
`Except.error e`; (ii) a failing render function likewise surfaces `e` after
all decorators have run. -/
theorem errors_propagate_unrecovered (ε : Type) (before after ds : List (Nat × ContextUpdate))
    (e : ε) (rt : Nat) (rv : Int) (ctx : StoryContext) :
    ((invoke (defaultDecorateStory (traceRender (fun _ => rt) rv)
        (tagDecs before ++ throwDecorator e :: tagDecs after)
        : RenderFn ε (List Nat) Int) ctx []).1 = Except.error e
      ∧ (invoke (defaultDecorateStory (traceRender (fun _ => rt) rv)
        (tagDecs before ++ throwDecorator e :: tagDecs after)
        : RenderFn ε (List Nat) Int) ctx []).2.user = (after.map Prod.fst).reverse)
    ∧ ((invoke (defaultDecorateStory (throwRender e) (tagDecs ds)
        : RenderFn ε (List Nat) Int) ctx []).1 = Except.error e
      ∧ (invoke (defaultDecorateStory (throwRender e) (tagDecs ds)
        : RenderFn ε (List Nat) Int) ctx []).2.user = (ds.map Prod.fst).reverse) := by
  constructor
  · have hstart : invoke (defaultDecorateStory (traceRender (fun _ => rt) rv)
          (tagDecs before ++ throwDecorator e :: tagDecs after)
          : RenderFn ε (List Nat) Int) ctx []
        = ((tagDecs before ++ throwDecorator e :: tagDecs after).foldl
            decorateStory (traceRender (fun _ => rt) rv)) ctx ⟨ctx, []⟩ := rfl
    have hrun := tagChain_run ε
        (decorateStory ((tagDecs before).foldl decorateStory (traceRender (fun _ => rt) rv))
          (throwDecorator e)) after ctx ⟨ctx, []⟩ rfl
    rw [hstart, List.foldl_append, List.foldl_cons, hrun]
    exact ⟨rfl, rfl⟩
  · have hstart : invoke (defaultDecorateStory (throwRender e) (tagDecs ds)
          : RenderFn ε (List Nat) Int) ctx []
        = ((tagDecs ds).foldl decorateStory (throwRender e)) ctx ⟨ctx, []⟩ := rfl
    have hrun := tagChain_run ε (throwRender e) ds ctx ⟨ctx, []⟩ rfl
    rw [hstart, hrun]
    exact ⟨rfl, rfl⟩

/-- C9: construction runs no frame — building the composed pipeline with
`defaultDecorateStory` leaves the threaded state untouched (no decorator or
render observation is recorded at build time), and every recorded observation
appears only once the returned entry point is invoked, which then produces
exactly the invocation trace. -/
theorem construction_runs_no_frames (ε : Type) (ds : List (Nat × ContextUpdate))
    (rt : Nat) (rv : Int) (ctx : StoryContext) (st : PipeState (List Nat)) :
    (buildComp (traceRender (fun _ => rt) rv)
        (tagDecs ds : List (Interceptor ε (List Nat) Int)) st).2 = st
    ∧ (invoke (defaultDecorateStory (traceRender (fun _ => rt) rv) (tagDecs ds)
        : RenderFn ε (List Nat) Int) ctx []).2.user
      = (ds.map Prod.fst).reverse ++ [rt] := by
  constructor
  · rfl
  · have hstart : invoke (defaultDecorateStory (traceRender (fun _ => rt) rv) (tagDecs ds)
          : RenderFn ε (List Nat) Int) ctx []
        = ((tagDecs ds).foldl decorateStory (traceRender (fun _ => rt) rv)) ctx ⟨ctx, []⟩ := rfl
    have hrun := tagChain_run ε (traceRender (fun _ => rt) rv) ds ctx ⟨ctx, []⟩ rfl
    rw [hstart, hrun]
    rfl

/-!
## Isolation across pipelines (C5)

Modelled from the spec §5: two separately built pipelines each own a private
current-context cell.  One invocation whose sole decorator suspends before
calling `next` is split at its suspension point into two atomic steps: step 0
(the entry point stores the external context into the pipeline's own cell,
then the decorator suspends), step 1 (the decorator resumes, calls `next` with
no update — merging the empty update into the cell — and the render function
records the context it observes).  A schedule interleaves the steps of the two
pipelines arbitrarily, preserving each pipeline's own program order.
-/

/-- Joint state of two separately built pipelines: each owns its private cell
and program counter; `trace` records, per render call, which pipeline rendered
and the context its render function observed. -/
structure TwoState where
  cell1 : Option StoryContext
  cell2 : Option StoryContext
  pc1 : Nat
  pc2 : Nat
  trace : List (Nat × StoryContext)
deriving DecidableEq, Repr

/-- One step of pipeline 1 (external context `ctx1`): entry writes the private
cell, resume merges the empty update and renders. -/
def step1 (ctx1 : StoryContext) (s : TwoState) : TwoState :=
  match s.pc1 with
  | 0 => { s with cell1 := some ctx1, pc1 := 1 }
  | 1 =>
    match s.cell1 with
    | some c =>
      { s with cell1 := some (mergeContext c emptyUpdate),
               trace := s.trace ++ [(1, mergeContext c emptyUpdate)], pc1 := 2 }
    | none => { s with pc1 := 2 }
  | _ => s

/-- One step of pipeline 2 (external context `ctx2`). -/
def step2 (ctx2 : StoryContext) (s : TwoState) : TwoState :=
  match s.pc2 with
  | 0 => { s with cell2 := some ctx2, pc2 := 1 }
  | 1 =>
    match s.cell2 with
    | some c =>
      { s with cell2 := some (mergeContext c emptyUpdate),
               trace := s.trace ++ [(2, mergeContext c emptyUpdate)], pc2 := 2 }
    | none => { s with pc2 := 2 }
  | _ => s

/-- Run an arbitrary interleaving: `true` schedules the next step of pipeline
1, `false` the next step of pipeline 2. -/
def runSched (ctx1 ctx2 : StoryContext) : List Bool → TwoState → TwoState
  | [], s => s
  | b :: bs, s => runSched ctx1 ctx2 bs (if b then step1 ctx1 s else step2 ctx2 s)

/-- Initial joint state: neither pipeline invoked yet. -/
def initTwo : TwoState := ⟨none, none, 0, 0, []⟩

/-- Invariant: once a pipeline has passed its entry step its private cell
holds its own external context, and every rendered trace entry pairs a
pipeline with that pipeline's own external context. -/
def IsolInv (ctx1 ctx2 : StoryContext) (s : TwoState) : Prop :=
  (1 ≤ s.pc1 → s.cell1 = some ctx1) ∧ (1 ≤ s.pc2 → s.cell2 = some ctx2)
  ∧ ∀ p ∈ s.trace, p = (1, ctx1) ∨ p = (2, ctx2)

theorem step1_inv (ctx1 ctx2 : StoryContext) (s : TwoState)
    (h : IsolInv ctx1 ctx2 s) : IsolInv ctx1 ctx2 (step1 ctx1 s) := by
  unfold IsolInv at h ⊢
  obtain ⟨h1, h2, h3⟩ := h
  match hpc : s.pc1 with
  | 0 =>
    have hstep : step1 ctx1 s = { s with cell1 := some ctx1, pc1 := 1 } := by
      simp only [step1, hpc]
    rw [hstep]
    exact ⟨fun _ => rfl, h2, h3⟩
  | 1 =>
    have hc : s.cell1 = some ctx1 := h1 (by omega)
    have hstep : step1 ctx1 s
        = { s with cell1 := some (mergeContext ctx1 emptyUpdate),
                   trace := s.trace ++ [(1, mergeContext ctx1 emptyUpdate)], pc1 := 2 } := by
      simp only [step1, hpc, hc]
    rw [hstep, mergeContext_emptyUpdate]
    refine ⟨fun _ => rfl, h2, ?_⟩
    intro p hp
    rcases List.mem_append.mp hp with hp | hp
    · exact h3 p hp
    · left
      simpa using hp
  | n + 2 =>
    have hstep : step1 ctx1 s = s := by
      simp only [step1, hpc]
    rw [hstep]
    exact ⟨h1, h2, h3⟩

theorem step2_inv (ctx1 ctx2 : StoryContext) (s : TwoState)
    (h : IsolInv ctx1 ctx2 s) : IsolInv ctx1 ctx2 (step2 ctx2 s) := by
  unfold IsolInv at h ⊢
  obtain ⟨h1, h2, h3⟩ := h
  match hpc : s.pc2 with
  | 0 =>
    have hstep : step2 ctx2 s = { s with cell2 := some ctx2, pc2 := 1 } := by
      simp only [step2, hpc]
    rw [hstep]
    exact ⟨h1, fun _ => rfl, h3⟩
  | 1 =>
    have hc : s.cell2 = some ctx2 := h2 (by omega)
    have hstep : step2 ctx2 s
        = { s with cell2 := some (mergeContext ctx2 emptyUpdate),
                   trace := s.trace ++ [(2, mergeContext ctx2 emptyUpdate)], pc2 := 2 } := by
      simp only [step2, hpc, hc]
    rw [hstep, mergeContext_emptyUpdate]
    refine ⟨h1, fun _ => rfl, ?_⟩
    intro p hp
    rcases List.mem_append.mp hp with hp | hp
    · exact h3 p hp
    · right
      simpa using hp
  | n + 2 =>
    have hstep : step2 ctx2 s = s := by
      simp only [step2, hpc]
    rw [hstep]
    exact ⟨h1, h2, h3⟩

theorem runSched_inv (ctx1 ctx2 : StoryContext) (sched : List Bool) :
    ∀ s : TwoState, IsolInv ctx1 ctx2 s → IsolInv ctx1 ctx2 (runSched ctx1 ctx2 sched s) := by
  induction sched with
  | nil => intro s h; exact h
  | cons b bs ih =>
    intro s h
    show IsolInv ctx1 ctx2 (runSched ctx1 ctx2 bs (if b then step1 ctx1 s else step2 ctx2 s))
    cases b
    · exact ih _ (step2_inv ctx1 ctx2 s h)
    · exact ih _ (step1_inv ctx1 ctx2 s h)

/-- C5: for every interleaving of the two pipelines' steps — including those
where both suspensions overlap — every rendered trace entry pairs a pipeline
with its own originally supplied external context: the two separately built
pipelines never share a cell and no value of one invocation appears in the
other. -/
theorem pipeline_isolation (ctx1 ctx2 : StoryContext) (sched : List Bool)
    (p : Nat × StoryContext)
    (hp : p ∈ (runSched ctx1 ctx2 sched initTwo).trace) :
    p = (1, ctx1) ∨ p = (2, ctx2) := by
  have hinit : IsolInv ctx1 ctx2 initTwo := by
    unfold IsolInv
    refine ⟨fun h => ?_, fun h => ?_, fun p hp => ?_⟩
    · simp [initTwo] at h
    · simp [initTwo] at h
    · simp [initTwo] at hp
  have hI := runSched_inv ctx1 ctx2 sched initTwo hinit
  unfold IsolInv at hI
  exact hI.2.2 p hp

/-- The two external contexts of the simultaneous-invocation test
(`value = 1` and `value = 2`). -/
def ctxV1 : StoryContext := ⟨"id", "kind", "name", "story", [], [("value", 1)]⟩

def ctxV2 : StoryContext := ⟨"id", "kind", "name", "story", [], [("value", 2)]⟩

theorem pipeline_isolation_witness :
    ((1 : Nat), ctxV1) ∈ (runSched ctxV1 ctxV2 [true, false, true, false] initTwo).trace
    ∧ (((1 : Nat), ctxV1) = (1, ctxV1) ∨ ((1 : Nat), ctxV1) = (2, ctxV2)) :=
  ⟨by decide,
   pipeline_isolation ctxV1 ctxV2 [true, false, true, false] (1, ctxV1) (by decide)⟩

/-!
## Single construction of the composed pipeline (C7)

Modelled from the spec §4.1/§9: the fold runs exactly once per build call and
each bound next-function is created at build time, not per invocation.  The
instrumented builder below threads an allocation counter through the build:
every bound next-function receives a fresh allocation id when it is created,
and the decorators record the id of the next-function they are handed.
Referential identity of the chain objects across invocations is reflected as
equality of the recorded allocation ids.
-/

/-- Allocation-instrumented chain builder: `taggedChain render n fresh` builds
a chain of `n` id-recording decorators around `render`, allocating one bound
next-function (with a fresh id) per fold step, and returns the chain together
with the next fresh id. -/
def taggedChain (render : RenderFn ε (List Nat) R) :
    Nat → Nat → RenderFn ε (List Nat) R × Nat
  | 0, fresh => (render, fresh)
  | n + 1, fresh =>
    let p := taggedChain render n fresh
    let bound := bindWithContext p.1
    (fun _ st => bound none (pushUser p.2 st), p.2 + 1)

/-- The entry point of the instrumented build: the chain is folded once, with
allocation ids starting at `0`, and each invocation merely stores the external
context into the cell and runs the pre-built chain. -/
def taggedBuild (render : RenderFn ε (List Nat) R) (n : Nat) : RenderFn ε (List Nat) R :=
  let c := (taggedChain render n 0).1
  fun ctx st => c ctx { st with cell := ctx }

/-- The allocation ids recorded by one invocation of a chain of `n` decorators
whose build started at `fresh`: outermost frame first. -/
def idListDown : Nat → Nat → List Nat
  | 0, _ => []
  | n + 1, fresh => (fresh + n) :: idListDown n fresh

theorem taggedChain_counter (render : RenderFn ε (List Nat) R) :
    ∀ n fresh : Nat, (taggedChain render n fresh).2 = fresh + n := by
  intro n
  induction n with
  | zero => intro fresh; rfl
  | succ m ih =>
    intro fresh
    show (taggedChain render m fresh).2 + 1 = fresh + (m + 1)
    rw [ih fresh]
    omega

theorem taggedChain_run (ε : Type) (rv : Int) :
    ∀ (n fresh : Nat) (ctx : StoryContext) (st : PipeState (List Nat)), st.cell = ctx →
    (taggedChain (pureRender rv : RenderFn ε (List Nat) Int) n fresh).1 ctx st
      = (Except.ok rv, ⟨ctx, st.user ++ idListDown n fresh⟩) := by
  intro n
  induction n with
  | zero =>
    intro fresh ctx st h
    show (Except.ok rv, st) = _
    rw [← h]
    simp [idListDown]
  | succ m ih =>
    intro fresh ctx st h
    show bindWithContext (taggedChain (pureRender rv) m fresh).1 none
        (pushUser (taggedChain (pureRender rv) m fresh).2 st) = _
    show (taggedChain (pureRender rv) m fresh).1
        (mergeContext (pushUser (taggedChain (pureRender rv) m fresh).2 st).cell emptyUpdate)
        ⟨mergeContext (pushUser (taggedChain (pureRender rv) m fresh).2 st).cell emptyUpdate,
         st.user ++ [(taggedChain (pureRender rv) m fresh).2]⟩ = _
    rw [show (pushUser (taggedChain (pureRender rv) m fresh).2 st).cell = st.cell from rfl,
        mergeContext_emptyUpdate, h, taggedChain_counter,
        ih fresh ctx ⟨ctx, st.user ++ [fresh + m]⟩ rfl]
    simp [idListDown, List.append_assoc]

/-- C7: the composed pipeline is folded exactly once per build call — the
allocation counter advances only during the build (`n` allocations for `n`
decorators) — and repeated invocations of the same entry point hand every
decorator a next-function with the very same build-time allocation id: the
first invocation records `idListDown n 0` and a second invocation of the same
entry point records the identical id sequence again, never freshly allocated
ids. -/
theorem chain_built_once_reused (ε : Type) (n : Nat) (rv : Int)
    (ctx1 ctx2 : StoryContext) :
    (taggedChain (pureRender rv : RenderFn ε (List Nat) Int) n 0).2 = n
    ∧ (invoke (taggedBuild (pureRender rv : RenderFn ε (List Nat) Int) n) ctx1 []).2.user
        = idListDown n 0
    ∧ (taggedBuild (pureRender rv : RenderFn ε (List Nat) Int) n ctx2
        ⟨ctx2, (invoke (taggedBuild (pureRender rv : RenderFn ε (List Nat) Int) n)
                  ctx1 []).2.user⟩).2.user
        = idListDown n 0 ++ idListDown n 0 := by
  have hrun1 := taggedChain_run ε rv n 0 ctx1 ⟨ctx1, []⟩ rfl
  have hfirst : (invoke (taggedBuild (pureRender rv : RenderFn ε (List Nat) Int) n)
      ctx1 []).2.user = idListDown n 0 := by
    show ((taggedChain (pureRender rv : RenderFn ε (List Nat) Int) n 0).1 ctx1
        ⟨ctx1, []⟩).2.user = idListDown n 0
    rw [hrun1]
    rfl
  refine ⟨?_, hfirst, ?_⟩
  · rw [taggedChain_counter]
    simp
  · rw [hfirst]
    have hrun2 := taggedChain_run ε rv n 0 ctx2 ⟨ctx2, idListDown n 0⟩ rfl
    show ((taggedChain (pureRender rv : RenderFn ε (List Nat) Int) n 0).1 ctx2
        ⟨ctx2, idListDown n 0⟩).2.user = idListDown n 0 ++ idListDown n 0
    rw [hrun2]

end Storybook
